import Mathlib

/-!
Shallow embedding of `rdf_converter_fixed.py`: a single-pass converter from a
semicolon-delimited CSV of French historic monuments to an RDF graph.

Strings are modelled as Lean `String` / `List Char`.  The script runs under
Python 3, where `str.strip`, the regex class `\w` and `float()` are
Unicode-aware; every definition below models their behaviour exactly on the
Latin-1 fragment of Unicode (code points below 256), which covers all
characters appearing in the repository's data and in the examples of the
specification.  Python floats are modelled as exact rationals (`PyFloat`),
keeping the inf/nan forms that `float()` also accepts; no claim depends on
binary rounding.
-/

namespace RdfConverter

/-- Python `str.strip()` whitespace test (Latin-1 fragment): space, TAB, LF,
VT, FF, CR, the separators 28-31, NEL 133 and NBSP 160. -/
def isPySpace (c : Char) : Bool :=
  decide (c.toNat = 32 ∨ c.toNat = 9 ∨ c.toNat = 10 ∨ c.toNat = 11 ∨ c.toNat = 12 ∨
    c.toNat = 13 ∨ (28 ≤ c.toNat ∧ c.toNat ≤ 31) ∨ c.toNat = 133 ∨ c.toNat = 160)

/-- Python regex `\w` on a `str` (Latin-1 fragment).  Python 3's `\w` is
Unicode-aware: it matches `[0-9A-Za-z_]` and every further character that is
a Unicode letter, digit or numeric character.  Below 256 those are 170 and 186
(the ordinal indicators), 178, 179, 185 (superscript digits), 181 (micro), 188-190 (vulgar
fractions) and the Latin-1 letters 192-255 except the multiplication and
division signs 215 and 247. -/
def pyWordChar (c : Char) : Bool :=
  decide ((48 ≤ c.toNat ∧ c.toNat ≤ 57) ∨ (65 ≤ c.toNat ∧ c.toNat ≤ 90) ∨
    (97 ≤ c.toNat ∧ c.toNat ≤ 122) ∨ c.toNat = 95 ∨ c.toNat = 170 ∨ c.toNat = 178 ∨
    c.toNat = 179 ∨ c.toNat = 181 ∨ c.toNat = 185 ∨ c.toNat = 186 ∨ c.toNat = 188 ∨
    c.toNat = 189 ∨ c.toNat = 190 ∨
    (192 ≤ c.toNat ∧ c.toNat ≤ 255 ∧ c.toNat ≠ 215 ∧ c.toNat ≠ 247))

/-- The characters the regex `[^\w\-_.]` of `safe_uri` leaves alone: word
characters, hyphen, underscore and period. -/
def pySafeChar (c : Char) : Bool :=
  pyWordChar c || decide (c.toNat = 45) || decide (c.toNat = 95) || decide (c.toNat = 46)

/-- The claim's own "safe characters": ASCII letters, ASCII digits, hyphen,
underscore and period.  Used to state the spec-side sanitization procedure. -/
def asciiSafeChar (c : Char) : Bool :=
  decide ((48 ≤ c.toNat ∧ c.toNat ≤ 57) ∨ (65 ≤ c.toNat ∧ c.toNat ≤ 90) ∨
    (97 ≤ c.toNat ∧ c.toNat ≤ 122) ∨ c.toNat = 45 ∨ c.toNat = 95 ∨ c.toNat = 46)

/-- Strip the characters satisfying `p` from both ends of a list: the model of
Python `str.strip()` / `str.strip('_')`. -/
def stripBoth (p : Char → Bool) (l : List Char) : List Char :=
  ((l.dropWhile p).reverse.dropWhile p).reverse

/-- Character-wise substitution: every character not satisfying `safe` becomes
one underscore. -/
def runSub (safe : Char → Bool) (l : List Char) : List Char :=
  l.map (fun c => if safe c then c else '_')

/-- Model of `re.sub(r'[^\w\-_.]', '_', s)`: every unsafe character becomes one
underscore. -/
def subSafe (l : List Char) : List Char :=
  runSub pySafeChar l

/-- Model of `re.sub(r'_+', '_', s)`: collapse every run of underscores to one. -/
def collapseU : List Char → List Char
  | [] => []
  | [c] => [c]
  | a :: b :: rest =>
    if a = '_' ∧ b = '_' then collapseU (b :: rest) else a :: collapseU (b :: rest)

/-- The sanitization procedure exactly as the specification words it, step (b):
replace every maximal run of characters not satisfying `safe` by one single
underscore.  An unsafe character followed by another unsafe character sits
inside a run and emits nothing; the run's single underscore is emitted at its
last character. -/
def runReplace (safe : Char → Bool) : List Char → List Char
  | [] => []
  | [c] => if safe c then [c] else ['_']
  | c :: d :: rest =>
    if safe c then c :: runReplace safe (d :: rest)
    else if safe d then '_' :: runReplace safe (d :: rest)
    else runReplace safe (d :: rest)

/-- The token `safe_uri` appends to the base namespace, translated from the
source: `strip()`, substitute unsafe characters, collapse underscores, strip
underscores, and fall back to `"unknown"` when empty. -/
def safeTokenL (l : List Char) : List Char :=
  let t1 := stripBoth isPySpace l
  let t2 := collapseU (subSafe t1)
  let t3 := stripBoth (fun c => c = '_') t2
  if t3 = [] then "unknown".data else t3

/-- String-level wrapper of `safeTokenL`: the part of `safe_uri`'s result
that follows the base namespace. -/
def safe_uri_token (ident : String) : String :=
  String.mk (safeTokenL ident.data)

/-- Model of `safe_uri(base_ns, identifier)`: both branches of the source
append the sanitized token to the namespace string. -/
def safe_uri (base_ns : String) (ident : String) : String :=
  base_ns ++ safe_uri_token ident

/-- The sanitization procedure as the specification words it, parameterized by
the set of characters considered safe: trim whitespace, replace each maximal
unsafe run by a single underscore, collapse repeated underscores, trim
underscores, substitute `"unknown"` when empty. -/
def specTokenWith (safe : Char → Bool) (l : List Char) : List Char :=
  let t1 := stripBoth isPySpace l
  let t2 := collapseU (runReplace safe t1)
  let t3 := stripBoth (fun c => c = '_') t2
  if t3 = [] then "unknown".data else t3

/-- The claim's ASCII-only sanitization procedure, at the String level. -/
def specTokenAscii (s : String) : String :=
  String.mk (specTokenWith asciiSafeChar s.data)

/-- The amended sanitization procedure (safe set = Python word characters,
hyphen, underscore, period), at the String level. -/
def specTokenPy (s : String) : String :=
  String.mk (specTokenWith pySafeChar s.data)

/-- A CSV cell as `csv.DictReader` (or a direct caller) can hand it to the
utility functions: a string, Python `None` (missing column), or any non-string
value. -/
inductive PyVal where
  | vNone
  | vStr (s : String)
  | vOther
deriving DecidableEq

/-- Model of `clean_value`: `None` for an absent or non-string value and for a
string that is empty or trims to empty, otherwise the trimmed string. -/
def clean_value (v : PyVal) : Option String :=
  match v with
  | PyVal.vStr s =>
    let t := stripBoth isPySpace s.data
    if t = [] then none else some (String.mk t)
  | _ => none

/-- Python `"…".split(',')`: split at every comma, keeping empty parts. -/
def splitComma : List Char → List (List Char)
  | [] => [[]]
  | ',' :: rest => [] :: splitComma rest
  | c :: rest =>
    match splitComma rest with
    | h :: t => (c :: h) :: t
    | [] => [[c]]

/-- A value `float()` can return: a finite value (modelled exactly as a
rational), the two infinities, or nan. -/
inductive PyFloat where
  | finite (q : ℚ)
  | inf
  | negInf
  | nan
deriving DecidableEq

/-- The value of a list of decimal digit characters. -/
def digitsToNat (ds : List Char) : ℕ :=
  ds.foldl (fun n c => 10 * n + (c.toNat - 48)) 0

/-- Continue a digit group as Python's number grammar (PEP 515) reads it:
digits possibly separated by single underscores; an underscore not followed by
a digit is left unconsumed.  Returns the digits read and the rest. -/
def digitsCont : List Char → List Char × List Char
  | [] => ([], [])
  | [c] =>
    if c.isDigit then ([c], []) else ([], [c])
  | c :: d :: rest =>
    if c.isDigit then
      let r := digitsCont (d :: rest)
      (c :: r.1, r.2)
    else if c = '_' ∧ d.isDigit then
      let r := digitsCont rest
      (d :: r.1, r.2)
    else ([], c :: d :: rest)

/-- A digit group: at least one leading digit, then `digitsCont`. -/
def parseDigits : List Char → Option (List Char × List Char)
  | [] => none
  | c :: rest =>
    if c.isDigit then
      let r := digitsCont rest
      some (c :: r.1, r.2)
    else none

/-- The exponent part of `float()`'s grammar: nothing (exponent 0), or
`e`/`E`, an optional sign and a digit group. -/
def parseExpPart : List Char → Option (ℤ × List Char)
  | [] => some (0, [])
  | c :: rest =>
    if c = 'e' ∨ c = 'E' then
      match rest with
      | '+' :: r2 =>
        match parseDigits r2 with
        | some (ds, r3) => some ((digitsToNat ds : ℤ), r3)
        | none => none
      | '-' :: r2 =>
        match parseDigits r2 with
        | some (ds, r3) => some (-(digitsToNat ds : ℤ), r3)
        | none => none
      | r2 =>
        match parseDigits r2 with
        | some (ds, r3) => some ((digitsToNat ds : ℤ), r3)
        | none => none
    else some (0, c :: rest)

/-- The mantissa of `float()`'s grammar: `digits [. [digits]]` or `. digits`.
Returned as the digit string's value together with the number of fractional
digits (the mantissa's value is the first divided by ten to the second). -/
def parseMantissa (l : List Char) : Option ((ℕ × ℕ) × List Char) :=
  match parseDigits l with
  | some (ip, r) =>
    match r with
    | '.' :: r2 =>
      match parseDigits r2 with
      | some (fp, r3) => some ((digitsToNat (ip ++ fp), fp.length), r3)
      | none => some ((digitsToNat ip, 0), r2)
    | _ => some ((digitsToNat ip, 0), r)
  | none =>
    match l with
    | '.' :: r2 =>
      match parseDigits r2 with
      | some (fp, r3) => some ((digitsToNat fp, fp.length), r3)
      | none => none
    | _ => none

/-- The rational value of a sign, a mantissa (`digits / 10 ^ frac`) and a
decimal exponent, built with `mkRat` so that it evaluates by computation. -/
def floatVal (neg : Bool) (digits frac : ℕ) (e : ℤ) : ℚ :=
  let n : ℤ := if neg then -(digits : ℤ) else (digits : ℤ)
  if 0 ≤ e then mkRat (n * 10 ^ e.toNat) (10 ^ frac)
  else mkRat n (10 ^ frac * 10 ^ (-e).toNat)

/-- ASCII lower-casing, for `float()`'s case-insensitive `inf`/`nan` forms. -/
def lowerAscii (c : Char) : Char :=
  if 65 ≤ c.toNat ∧ c.toNat ≤ 90 then Char.ofNat (c.toNat + 32) else c

/-- The body of a `float()` literal after stripping and an optional sign:
`inf`, `infinity`, `nan` (case-insensitive) or mantissa and exponent with
nothing left over. -/
def pyFloatBody (l : List Char) (neg : Bool) : Option PyFloat :=
  let low := l.map lowerAscii
  if low = "inf".data ∨ low = "infinity".data then
    some (if neg then PyFloat.negInf else PyFloat.inf)
  else if low = "nan".data then some PyFloat.nan
  else
    match parseMantissa l with
    | some (m, r) =>
      match parseExpPart r with
      | some (e, r2) =>
        if r2 = [] then some (PyFloat.finite (floatVal neg m.1 m.2 e))
        else none
      | none => none
    | none => none

/-- Model of Python `float(s)` on the Latin-1 fragment: strip whitespace, read
an optional sign, then `pyFloatBody`; `none` models the `ValueError`. -/
def pyFloatOfStr (l : List Char) : Option PyFloat :=
  match stripBoth isPySpace l with
  | '+' :: r => pyFloatBody r false
  | '-' :: r => pyFloatBody r true
  | [] => none
  | r => pyFloatBody r false

/-- Model of `parse_coordinates`: `None, None` (here `none`) for a falsy or
non-string input, a split that does not give exactly two parts, or a part
`float()` rejects; otherwise the two parsed values.  The source returns the
two floats together or not at all (a `ValueError` on either makes it fall
through to `return None, None`), so an `Option` of a pair is the faithful
return type. -/
def parse_coordinates (v : PyVal) : Option (PyFloat × PyFloat) :=
  match v with
  | PyVal.vStr s =>
    if s.data = [] then none
    else
      match splitComma s.data with
      | [a, b] =>
        match pyFloatOfStr (stripBoth isPySpace a), pyFloatOfStr (stripBoth isPySpace b) with
        | some la, some lb => some (la, lb)
        | _, _ => none
      | _ => none
  | _ => none

/-- The five namespace constants of the source. -/
def BASE : String := "http://monuments-historiques.fr/resource/"

def SCHEMA : String := "http://schema.org/"

def WGS84 : String := "http://www.w3.org/2003/01/geo/wgs84_pos#"

def DCTERMS : String := "http://purl.org/dc/terms/"

def OSM : String := "https://www.openstreetmap.org/"

/-- rdflib's `RDF.type`. -/
def RDF_type : String := "http://www.w3.org/1999/02/22-rdf-syntax-ns#type"

/-- An RDF object node as the source builds them: a URI reference, a plain
string literal, a literal typed `xsd:decimal` (holding a parsed float) or a
literal typed `xsd:date` (holding the raw string, unvalidated). -/
inductive RDFNode where
  | uri (u : String)
  | litStr (s : String)
  | litDecimal (v : PyFloat)
  | litDate (s : String)
deriving DecidableEq

/-- One RDF triple.  Subjects in this program are always URIs, kept as the
URI string. -/
structure Triple where
  subj : String
  pred : String
  obj : RDFNode
deriving DecidableEq

/-- One CSV row as `csv.DictReader` hands it to the mapper: the nine column
values `row.get` reads.  A column missing from the file or from a short row is
`vNone` (`DictReader`'s `restval`).  The fields are, in column order:
`Type`, `Nom`, `Commune`, `Département`, `Région`, `OSM Point`, `OSM Id`,
`OSM URL`, `OSM Date mise à jour`. -/
structure Row where
  typ : PyVal
  nom : PyVal
  commune : PyVal
  departement : PyVal
  region : PyVal
  osmPoint : PyVal
  osmId : PyVal
  osmUrl : PyVal
  osmDate : PyVal
deriving DecidableEq

/-- One optional column block of `map_csv_to_rdf`: `if value: g.add(triple)`.
A cleaned value `some v` contributes the one triple built from `v`, an absent
value contributes nothing. -/
def optTriple (oc : Option String) (f : String → Triple) : List Triple :=
  match oc with
  | some v => [f v]
  | none => []

/-- The `OSM Point` block of `map_csv_to_rdf`: if the cleaned value is present
and `parse_coordinates` yields a pair, add the `wgs84:lat` and `wgs84:long`
triples together; otherwise add nothing. -/
def geoTriples (oc : Option String) (monument_uri : String) : List Triple :=
  match oc with
  | some p =>
    match parse_coordinates (PyVal.vStr p) with
    | some (la, lo) =>
      [⟨monument_uri, WGS84 ++ "lat", RDFNode.litDecimal la⟩,
       ⟨monument_uri, WGS84 ++ "long", RDFNode.litDecimal lo⟩]
    | none => []
  | none => []

/-- Model of `map_csv_to_rdf(row, monument_uri, g)`: the `g.add` calls the
call performs, in source order.  Each block contributes no triple when its
cleaned column value is absent. -/
def map_csv_to_rdf (row : Row) (monument_uri : String) : List Triple :=
  optTriple (clean_value row.typ)
    (fun t => ⟨monument_uri, SCHEMA ++ "category", RDFNode.uri (safe_uri SCHEMA t)⟩)
  ++ optTriple (clean_value row.nom)
    (fun v => ⟨monument_uri, SCHEMA ++ "name", RDFNode.litStr v⟩)
  ++ optTriple (clean_value row.commune)
    (fun v => ⟨monument_uri, SCHEMA ++ "addressLocality", RDFNode.litStr v⟩)
  ++ optTriple (clean_value row.departement)
    (fun v => ⟨monument_uri, SCHEMA ++ "department", RDFNode.litStr v⟩)
  ++ optTriple (clean_value row.region)
    (fun v => ⟨monument_uri, SCHEMA ++ "addressRegion", RDFNode.litStr v⟩)
  ++ geoTriples (clean_value row.osmPoint) monument_uri
  ++ optTriple (clean_value row.osmId)
    (fun v => ⟨monument_uri, OSM ++ "osmId", RDFNode.litStr v⟩)
  ++ optTriple (clean_value row.osmUrl)
    (fun v => ⟨monument_uri, SCHEMA ++ "url", RDFNode.uri v⟩)
  ++ optTriple (clean_value row.osmDate)
    (fun v => ⟨monument_uri, DCTERMS ++ "modified", RDFNode.litDate v⟩)

/-- rdflib's `g.add`: the graph is a set of triples, so adding one already
present changes nothing.  The list keeps first-insertion order. -/
def addTriple (g : List Triple) (t : Triple) : List Triple :=
  if t ∈ g then g else g ++ [t]

/-- The monument identifier of a row: `osm_<OSM Id>` when the cleaned id is
present, else the fallback `monument_<idx>` from the 1-based row index. -/
def monumentId (row : Row) (idx : ℕ) : String :=
  match clean_value row.osmId with
  | some oid => "osm_" ++ oid
  | none => "monument_" ++ toString idx

/-- The subject URI of a row: `safe_uri(BASE, monument_id)`. -/
def monumentURI (row : Row) (idx : ℕ) : String :=
  safe_uri BASE (monumentId row idx)

/-- All `g.add` calls of one iteration of the conversion loop's `try` block,
in order: the base `rdf:type schema:Place` triple, then `map_csv_to_rdf`. -/
def rowTriples (row : Row) (idx : ℕ) : List Triple :=
  ⟨monumentURI row idx, RDF_type, RDFNode.uri (SCHEMA ++ "Place")⟩
    :: map_csv_to_rdf row (monumentURI row idx)

/-- The source's `if limit and idx > limit: break` guard: Python truthiness
makes both `None` and `0` mean "no limit". -/
def limitStops (limit : Option ℕ) (idx : ℕ) : Bool :=
  match limit with
  | none => false
  | some n => if n = 0 then false else decide (idx > n)

/-- The running state of `convert_csv_to_rdf`: the graph and the two
counters. -/
structure ConvResult where
  g : List Triple
  success : ℕ
  errors : ℕ
deriving DecidableEq

/-- One iteration of the loop body's `try`/`except`.  The pure embedding of
the body cannot itself raise, so the possible exceptions of a run are
injected: `fault = some k` means an exception is raised while mapping this
row after exactly `k` of its `g.add` calls have executed (the `except` then
leaves those `k` triples committed, counts the error and moves on, as the
source's catch-all sits outside the already-performed graph mutations);
`fault = none` is the normal run: all adds execute and the success counter
moves. -/
def processRow (fault : Option ℕ) (st : ConvResult) (row : Row) (idx : ℕ) : ConvResult :=
  match fault with
  | none =>
    { g := (rowTriples row idx).foldl addTriple st.g,
      success := st.success + 1, errors := st.errors }
  | some k =>
    { g := ((rowTriples row idx).take k).foldl addTriple st.g,
      success := st.success, errors := st.errors + 1 }

/-- The `for idx, row in enumerate(reader, 1)` loop with the limit guard. -/
def convertAux (limit : Option ℕ) (fault : ℕ → Option ℕ) :
    List Row → ℕ → ConvResult → ConvResult
  | [], _, st => st
  | row :: rest, idx, st =>
    if limitStops limit idx then st
    else convertAux limit fault rest (idx + 1) (processRow (fault idx) st row idx)

/-- A whole run of `convert_csv_to_rdf` with a given exception schedule. -/
def convertFault (rows : List Row) (limit : Option ℕ) (fault : ℕ → Option ℕ) : ConvResult :=
  convertAux limit fault rows 1 ⟨[], 0, 0⟩

/-- Model of `convert_csv_to_rdf(csv_file, output_file, limit)` on the list of
data rows the reader yields: the normal (exception-free) run. -/
def convert_csv_to_rdf (rows : List Row) (limit : Option ℕ) : ConvResult :=
  convertFault rows limit (fun _ => none)

/-- The single data row of the end-to-end example: header
`Type;Nom;Commune;Département;Région;OSM Point;OSM Id;OSM URL;OSM Date mise à jour`,
row `memorial;Monument X;Paris;Paris;Île-de-France;48.97, 5.51;12345;http://osm.org/12345;2020-01-01`. -/
def rowMonumentX : Row :=
  ⟨PyVal.vStr "memorial", PyVal.vStr "Monument X", PyVal.vStr "Paris", PyVal.vStr "Paris",
   PyVal.vStr "Île-de-France", PyVal.vStr "48.97, 5.51", PyVal.vStr "12345",
   PyVal.vStr "http://osm.org/12345", PyVal.vStr "2020-01-01"⟩

/-- The same row with `OSM Point` = `"48.97"` (no comma). -/
def rowPointNoComma : Row :=
  ⟨PyVal.vStr "memorial", PyVal.vStr "Monument X", PyVal.vStr "Paris", PyVal.vStr "Paris",
   PyVal.vStr "Île-de-France", PyVal.vStr "48.97", PyVal.vStr "12345",
   PyVal.vStr "http://osm.org/12345", PyVal.vStr "2020-01-01"⟩

/-- A row with every mapped column absent. -/
def rowEmptyCells : Row :=
  ⟨PyVal.vNone, PyVal.vNone, PyVal.vNone, PyVal.vNone, PyVal.vNone,
   PyVal.vNone, PyVal.vNone, PyVal.vNone, PyVal.vNone⟩

/-- A row that carries only an `OSM Id`, for concrete witnesses. -/
def rowOsm777 : Row :=
  ⟨PyVal.vNone, PyVal.vNone, PyVal.vNone, PyVal.vNone, PyVal.vNone,
   PyVal.vNone, PyVal.vStr "777", PyVal.vNone, PyVal.vNone⟩

/-! Helper lemmas on `collapseU` and `runReplace`. -/

theorem collapseU_absorb (l : List Char) :
    collapseU ('_' :: '_' :: l) = collapseU ('_' :: l) := by
  simp [collapseU]

theorem collapseU_cons_ne {a : Char} (h : a ≠ '_') (l : List Char) :
    collapseU (a :: l) = a :: collapseU l := by
  cases l with
  | nil => rfl
  | cons b rest => simp [collapseU, h]

theorem collapseU_underscore_cons {b : Char} (h : b ≠ '_') (l : List Char) :
    collapseU ('_' :: b :: l) = '_' :: collapseU (b :: l) := by
  simp [collapseU, h]

theorem head_runReplace_of_not_safe (safe : Char → Bool) :
    ∀ (r : List Char) (d : Char), safe d = false →
      (runReplace safe (d :: r)).head? = some '_' := by
  intro r
  induction r with
  | nil => intro d hd; simp [runReplace, hd]
  | cons e r' ih =>
    intro d hd
    by_cases he : safe e
    · simp [runReplace, hd, he]
    · simp only [runReplace, hd, Bool.false_eq_true, if_false,
        he, if_neg]
      exact ih e (by simp [he])

theorem collapseU_underscore_head {l : List Char} (h : l.head? = some '_') :
    collapseU ('_' :: l) = collapseU l := by
  cases l with
  | nil => simp at h
  | cons b rest =>
    simp only [List.head?_cons, Option.some.injEq] at h
    subst h
    exact collapseU_absorb rest

theorem collapseU_runSub_runReplace (safe : Char → Bool) :
    ∀ l : List Char,
      collapseU (runSub safe l) = collapseU (runReplace safe l) ∧
      collapseU ('_' :: runSub safe l) = collapseU ('_' :: runReplace safe l) := by
  intro l
  induction l with
  | nil => exact ⟨rfl, rfl⟩
  | cons c t ih =>
    cases t with
    | nil =>
      by_cases hc : safe c <;> simp [runSub, runReplace, hc]
    | cons d r =>
      have hsub : runSub safe (c :: d :: r) = (if safe c then c else '_') :: runSub safe (d :: r) := by
        simp [runSub]
      by_cases hc : safe c
      · have hrr : runReplace safe (c :: d :: r) = c :: runReplace safe (d :: r) := by
          simp [runReplace, hc]
        rw [hsub, hrr, if_pos hc]
        by_cases hcu : c = '_'
        · subst hcu
          refine ⟨ih.2, ?_⟩
          rw [collapseU_absorb, collapseU_absorb]
          exact ih.2
        · have hP : collapseU (c :: runSub safe (d :: r)) =
              collapseU (c :: runReplace safe (d :: r)) := by
            rw [collapseU_cons_ne hcu, collapseU_cons_ne hcu, ih.1]
          refine ⟨hP, ?_⟩
          rw [collapseU_underscore_cons hcu, collapseU_underscore_cons hcu, hP]
      · rw [hsub, if_neg hc]
        by_cases hd : safe d
        · have hrr : runReplace safe (c :: d :: r) = '_' :: runReplace safe (d :: r) := by
            simp [runReplace, hc, hd]
          rw [hrr]
          refine ⟨ih.2, ?_⟩
          rw [collapseU_absorb, collapseU_absorb]
          exact ih.2
        · have hrr : runReplace safe (c :: d :: r) = runReplace safe (d :: r) := by
            simp [runReplace, hc, hd]
          rw [hrr]
          have hrhead : collapseU ('_' :: runReplace safe (d :: r)) =
              collapseU (runReplace safe (d :: r)) :=
            collapseU_underscore_head
              (head_runReplace_of_not_safe safe r d (by simp [hd]))
          refine ⟨?_, ?_⟩
          · rw [ih.2]; exact hrhead
          · rw [collapseU_absorb]; exact ih.2

/-- The code-side token equals the spec-procedure token over the word-character
safe set: substituting each unsafe character and collapsing underscores gives
the same result as replacing each maximal unsafe run by one underscore and
collapsing. -/
theorem safeTokenL_eq_specTokenWith (l : List Char) :
    safeTokenL l = specTokenWith pySafeChar l := by
  simp only [safeTokenL, specTokenWith, subSafe]
  rw [(collapseU_runSub_runReplace pySafeChar (stripBoth isPySpace l)).1]

/-! Helper lemmas for the identity and idempotence properties of the token. -/

theorem dropWhile_eq_self_of_head {p : Char → Bool} {l : List Char}
    (h : ∀ a, l.head? = some a → p a = false) : l.dropWhile p = l := by
  cases l with
  | nil => rfl
  | cons a rest => simp [List.dropWhile_cons, h a rfl]

theorem stripBoth_eq_self_of_ends {p : Char → Bool} {l : List Char}
    (h1 : ∀ a, l.head? = some a → p a = false)
    (h2 : ∀ a, l.getLast? = some a → p a = false) : stripBoth p l = l := by
  unfold stripBoth
  rw [dropWhile_eq_self_of_head h1]
  rw [dropWhile_eq_self_of_head (by
    intro a ha
    exact h2 a (by rwa [List.head?_reverse] at ha))]
  exact List.reverse_reverse l

theorem mem_of_head?_eq {a : Char} {l : List Char} (h : l.head? = some a) : a ∈ l := by
  cases l with
  | nil => simp at h
  | cons b r => simp_all

theorem mem_of_getLast?_eq {a : Char} {l : List Char} (h : l.getLast? = some a) : a ∈ l := by
  rw [← List.head?_reverse] at h
  exact List.mem_reverse.mp (mem_of_head?_eq h)

theorem stripBoth_eq_self_of_forall {p : Char → Bool} {l : List Char}
    (h : ∀ c ∈ l, p c = false) : stripBoth p l = l := by
  refine stripBoth_eq_self_of_ends ?_ ?_
  · intro a ha
    exact h a (mem_of_head?_eq ha)
  · intro a ha
    exact h a (mem_of_getLast?_eq ha)

theorem runSub_eq_self_of_forall {safe : Char → Bool} {l : List Char}
    (h : ∀ c ∈ l, safe c = true) : runSub safe l = l := by
  induction l with
  | nil => rfl
  | cons a rest ih =>
    simp only [runSub, List.map_cons, h a (List.mem_cons_self a rest), if_pos]
    exact congrArg (a :: ·) (ih (fun c hc => h c (List.mem_cons_of_mem a hc)))

theorem collapseU_eq_self {l : List Char}
    (h : List.Chain' (fun a b => ¬(a = '_' ∧ b = '_')) l) : collapseU l = l := by
  induction l with
  | nil => rfl
  | cons a rest ih =>
    cases rest with
    | nil => rfl
    | cons b r =>
      rw [List.chain'_cons] at h
      simp only [collapseU, if_neg h.1]
      exact congrArg (a :: ·) (ih h.2)

theorem mem_collapseU {c : Char} : ∀ {l : List Char}, c ∈ collapseU l → c ∈ l := by
  intro l
  induction l with
  | nil => simp [collapseU]
  | cons a rest ih =>
    cases rest with
    | nil => simp [collapseU]
    | cons b r =>
      by_cases hab : a = '_' ∧ b = '_'
      · simp only [collapseU, if_pos hab]
        intro h
        exact List.mem_cons_of_mem a (ih h)
      · simp only [collapseU, if_neg hab, List.mem_cons]
        rintro (h | h)
        · exact Or.inl h
        · rcases List.mem_cons.mp (ih h) with h2 | h2
          · exact Or.inr (Or.inl h2)
          · exact Or.inr (Or.inr h2)

theorem mem_stripBoth {c : Char} {p : Char → Bool} {l : List Char}
    (h : c ∈ stripBoth p l) : c ∈ l := by
  unfold stripBoth at h
  rw [List.mem_reverse] at h
  have h2 := (List.dropWhile_suffix p).subset h
  rw [List.mem_reverse] at h2
  exact (List.dropWhile_suffix p).subset h2

theorem mem_subSafe_safe {c : Char} {l : List Char} (h : c ∈ subSafe l) :
    pySafeChar c = true := by
  simp only [subSafe, runSub, List.mem_map] at h
  obtain ⟨a, -, ha⟩ := h
  by_cases hs : pySafeChar a
  · rw [if_pos hs] at ha
    exact ha ▸ hs
  · rw [if_neg hs] at ha
    rw [← ha]
    decide

theorem head?_collapseU : ∀ (l : List Char) (b : Char),
    (collapseU (b :: l)).head? = some b := by
  intro l
  induction l with
  | nil => intro b; rfl
  | cons c r ih =>
    intro b
    by_cases hbc : b = '_' ∧ c = '_'
    · simp only [collapseU, if_pos hbc]
      rw [ih c, hbc.1, hbc.2]
    · simp [collapseU, if_neg hbc]

theorem chain'_collapseU : ∀ l : List Char,
    List.Chain' (fun a b => ¬(a = '_' ∧ b = '_')) (collapseU l) := by
  intro l
  induction l with
  | nil => simp [collapseU]
  | cons a rest ih =>
    cases rest with
    | nil => simp [collapseU]
    | cons b r =>
      by_cases hab : a = '_' ∧ b = '_'
      · simpa only [collapseU, if_pos hab] using ih
      · simp only [collapseU, if_neg hab]
        rw [List.chain'_cons']
        refine ⟨?_, ih⟩
        intro y hy
        rw [head?_collapseU r b] at hy
        cases hy
        exact hab

theorem chain'_stripBoth {p : Char → Bool} {l : List Char}
    (h : List.Chain' (fun a b => ¬(a = '_' ∧ b = '_')) l) :
    List.Chain' (fun a b => ¬(a = '_' ∧ b = '_')) (stripBoth p l) := by
  have h1 : List.Chain' (fun a b => ¬(a = '_' ∧ b = '_')) (l.dropWhile p) :=
    List.Chain'.suffix h (List.dropWhile_suffix p)
  have h2 : List.Chain' (fun a b => ¬(a = '_' ∧ b = '_')) (l.dropWhile p).reverse := by
    rw [List.chain'_reverse]
    exact List.Chain'.imp (fun a b hab => by simp only [flip]; tauto) h1
  have h3 : List.Chain' (fun a b => ¬(a = '_' ∧ b = '_'))
      ((l.dropWhile p).reverse.dropWhile p) :=
    List.Chain'.suffix h2 (List.dropWhile_suffix p)
  unfold stripBoth
  rw [List.chain'_reverse]
  exact List.Chain'.imp (fun a b hab => by simp only [flip]; tauto) h3

theorem head?_dropWhile_false {p : Char → Bool} :
    ∀ {l : List Char} {a : Char}, (l.dropWhile p).head? = some a → p a = false := by
  intro l
  induction l with
  | nil => intro a h; simp at h
  | cons b r ih =>
    intro a h
    by_cases hb : p b
    · rw [List.dropWhile_cons, if_pos hb] at h
      exact ih h
    · rw [List.dropWhile_cons, if_neg hb] at h
      simp only [List.head?_cons, Option.some.injEq] at h
      subst h
      exact Bool.eq_false_iff.mpr hb

theorem getLast?_dropWhile {p : Char → Bool} :
    ∀ {l : List Char}, l.dropWhile p ≠ [] → (l.dropWhile p).getLast? = l.getLast? := by
  intro l
  induction l with
  | nil => intro h; simp at h
  | cons b r ih =>
    intro h
    by_cases hb : p b
    · rw [List.dropWhile_cons, if_pos hb] at h ⊢
      rw [ih h]
      have hr : r ≠ [] := by
        intro he
        exact h (by simp [he])
      cases r with
      | nil => exact absurd rfl hr
      | cons x xs => simp [List.getLast?_cons_cons]
    · rw [List.dropWhile_cons, if_neg hb]

theorem head?_stripBoth_false {p : Char → Bool} {l : List Char} {a : Char}
    (h : (stripBoth p l).head? = some a) : p a = false := by
  unfold stripBoth at h
  rw [List.head?_reverse] at h
  have hne : (l.dropWhile p).reverse.dropWhile p ≠ [] := by
    intro he
    rw [he] at h
    simp at h
  rw [getLast?_dropWhile hne, List.getLast?_reverse] at h
  exact head?_dropWhile_false h

theorem getLast?_stripBoth_false {p : Char → Bool} {l : List Char} {a : Char}
    (h : (stripBoth p l).getLast? = some a) : p a = false := by
  unfold stripBoth at h
  rw [List.getLast?_reverse] at h
  exact head?_dropWhile_false h

theorem pySafeChar_not_space {c : Char} (h : pySafeChar c = true) : isPySpace c = false := by
  simp only [pySafeChar, pyWordChar, Bool.or_eq_true, decide_eq_true_eq] at h
  simp only [isPySpace, decide_eq_false_iff_not]
  omega

theorem asciiSafeChar_safe {c : Char} (h : asciiSafeChar c = true) : pySafeChar c = true := by
  simp only [asciiSafeChar, decide_eq_true_eq] at h
  simp only [pySafeChar, pyWordChar, Bool.or_eq_true, decide_eq_true_eq]
  omega

/-! Invariants of the token `safeTokenL` produces, used for idempotence. -/

theorem safeTokenL_mem_safe {c : Char} {l : List Char} (h : c ∈ safeTokenL l) :
    pySafeChar c = true := by
  simp only [safeTokenL] at h
  split at h
  · have hall : ∀ x ∈ "unknown".data, pySafeChar x = true := by decide
    exact hall c h
  · exact mem_subSafe_safe (mem_collapseU (mem_stripBoth h))

theorem safeTokenL_chain' (l : List Char) :
    List.Chain' (fun a b => ¬(a = '_' ∧ b = '_')) (safeTokenL l) := by
  simp only [safeTokenL]
  split
  · simp [List.chain'_cons]
  · exact chain'_stripBoth (chain'_collapseU _)

theorem safeTokenL_head {l : List Char} {a : Char}
    (h : (safeTokenL l).head? = some a) : a ≠ '_' := by
  simp only [safeTokenL] at h
  split at h
  · simp only [List.head?] at h
    cases h
    decide
  · have := head?_stripBoth_false h
    simpa using this

theorem safeTokenL_getLast {l : List Char} {a : Char}
    (h : (safeTokenL l).getLast? = some a) : a ≠ '_' := by
  simp only [safeTokenL] at h
  split at h
  · rw [show ("unknown".data : List Char).getLast? = some 'n' by decide] at h
    cases h
    decide
  · have := getLast?_stripBoth_false h
    simpa using this

theorem safeTokenL_ne_nil (l : List Char) : safeTokenL l ≠ [] := by
  simp only [safeTokenL]
  split
  · decide
  · assumption

/-- Applying the token computation to a list all of whose characters are safe,
with no two consecutive underscores and underscore-free ends, changes
nothing. -/
theorem safeTokenL_eq_self {l : List Char} (h0 : l ≠ [])
    (hsafe : ∀ c ∈ l, pySafeChar c = true)
    (hchain : List.Chain' (fun a b => ¬(a = '_' ∧ b = '_')) l)
    (hhead : ∀ a, l.head? = some a → a ≠ '_')
    (hlast : ∀ a, l.getLast? = some a → a ≠ '_') : safeTokenL l = l := by
  have hspace : ∀ c ∈ l, isPySpace c = false :=
    fun c hc => pySafeChar_not_space (hsafe c hc)
  have h1 : stripBoth isPySpace l = l := stripBoth_eq_self_of_forall hspace
  have h2 : subSafe l = l := runSub_eq_self_of_forall hsafe
  have h3 : collapseU l = l := collapseU_eq_self hchain
  have h4 : stripBoth (fun c => c = '_') l = l := by
    refine stripBoth_eq_self_of_ends ?_ ?_
    · intro a ha
      simpa using hhead a ha
    · intro a ha
      simpa using hlast a ha
  simp only [safeTokenL, h1, h2, h3, h4, if_neg h0]

/-- C2, counterexample.  At the single-character input `é` the token `safe_uri`
produces is `é` (Python's `\w` matches it), while the claim's ASCII-only
procedure yields `unknown`. -/
theorem c2_ascii_refuted :
    safe_uri_token "é" = "é" ∧ specTokenAscii "é" = "unknown" ∧
    safe_uri_token "é" ≠ specTokenAscii "é" := by
  decide

/-- C2, amended: with "ASCII letters, ASCII digits" amended to "word
characters (Unicode letters and digits, as Python's `\w` matches them)", the
token produced by `safe_uri` equals the claim's procedure: trim whitespace,
replace every maximal run of characters other than word characters, hyphen,
underscore and period by a single underscore, collapse repeated underscores,
trim leading and trailing underscores, and substitute `unknown` if empty. -/
theorem c2_token_is_spec_procedure (s : String) :
    safe_uri_token s = specTokenPy s :=
  congrArg String.mk (safeTokenL_eq_specTokenWith s.data)

/-- C3, counterexample.  `"a__b"` and `"_a"` are non-empty strings of safe
characters with no whitespace to trim, yet `safe_uri` collapses the double
underscore of the first to `"a_b"` and strips the leading underscore of the
second to `"a"`. -/
theorem c3_safe_chars_refuted :
    ("a__b".data ≠ [] ∧ (∀ c ∈ "a__b".data, asciiSafeChar c = true) ∧
      stripBoth isPySpace "a__b".data = "a__b".data ∧
      safe_uri_token "a__b" = "a_b" ∧ safe_uri_token "a__b" ≠ "a__b") ∧
    ("_a".data ≠ [] ∧ (∀ c ∈ "_a".data, asciiSafeChar c = true) ∧
      stripBoth isPySpace "_a".data = "_a".data ∧
      safe_uri_token "_a" = "a" ∧ safe_uri_token "_a" ≠ "_a") := by
  decide

/-- C3, amended: a non-empty string of safe characters is returned unchanged
by `safe_uri` provided it has no two consecutive underscores and neither
starts nor ends with an underscore (safe characters include no whitespace, so
trimming is the identity on such strings). -/
theorem c3_safe_chars_fixed (s : String) (h0 : s.data ≠ [])
    (h1 : ∀ c ∈ s.data, asciiSafeChar c = true)
    (h2 : List.Chain' (fun a b => ¬(a = '_' ∧ b = '_')) s.data)
    (h3 : s.data.head? ≠ some '_') (h4 : s.data.getLast? ≠ some '_') :
    safe_uri_token s = s := by
  have hsafe : ∀ c ∈ s.data, pySafeChar c = true :=
    fun c hc => asciiSafeChar_safe (h1 c hc)
  have htok : safeTokenL s.data = s.data := by
    refine safeTokenL_eq_self h0 hsafe h2 ?_ ?_
    · intro a ha hau
      exact h3 (by rw [ha, hau])
    · intro a ha hau
      exact h4 (by rw [ha, hau])
  unfold safe_uri_token
  rw [htok]

/-- C3, witness: the amended theorem applied at the concrete safe string
`abc-1.2_x`. -/
theorem c3_safe_chars_fixed_witness : safe_uri_token "abc-1.2_x" = "abc-1.2_x" :=
  c3_safe_chars_fixed "abc-1.2_x" (by decide) (by decide)
    (by simp [List.chain'_cons]) (by decide) (by decide)

/-- C4, confirmed: the token computation of `safe_uri` is idempotent — the
token of a token is itself. -/
theorem c4_token_idempotent (s : String) :
    safe_uri_token (safe_uri_token s) = safe_uri_token s := by
  have key : safeTokenL (safeTokenL s.data) = safeTokenL s.data := by
    refine safeTokenL_eq_self (safeTokenL_ne_nil s.data)
      (fun c hc => safeTokenL_mem_safe hc) (safeTokenL_chain' s.data) ?_ ?_
    · intro a ha
      exact safeTokenL_head ha
    · intro a ha
      exact safeTokenL_getLast ha
  unfold safe_uri_token
  exact congrArg String.mk key

/-- C5, confirmed: `parse_coordinates` is a total function (the model of
"never raises") returning an optional pair, and it returns the absent pair
exactly when the input is absent or not a string, does not split into exactly
two comma-separated parts, or has a part that fails to parse as a float; in
particular on `"48.97, 5.51"` it returns the pair (48.97, 5.51) and on
`"not,a,number,here"`, `""` and `None` it returns the absent pair. -/
theorem c5_parse_coordinates_spec :
    (∀ v : PyVal, parse_coordinates v = none ↔
      ((∀ s, v ≠ PyVal.vStr s) ∨
       (∃ s, v = PyVal.vStr s ∧ (splitComma s.data).length ≠ 2) ∨
       (∃ s a b, v = PyVal.vStr s ∧ splitComma s.data = [a, b] ∧
         (pyFloatOfStr (stripBoth isPySpace a) = none ∨
          pyFloatOfStr (stripBoth isPySpace b) = none)))) ∧
    parse_coordinates (PyVal.vStr "48.97, 5.51") =
      some (PyFloat.finite (mkRat 4897 100), PyFloat.finite (mkRat 551 100)) ∧
    parse_coordinates (PyVal.vStr "not,a,number,here") = none ∧
    parse_coordinates (PyVal.vStr "") = none ∧
    parse_coordinates PyVal.vNone = none := by
  refine ⟨?_, by decide, by decide, by decide, rfl⟩
  intro v
  cases v with
  | vNone =>
    simp only [parse_coordinates]
    exact ⟨fun _ => Or.inl (fun s h => by cases h), fun _ => trivial⟩
  | vOther =>
    simp only [parse_coordinates]
    exact ⟨fun _ => Or.inl (fun s h => by cases h), fun _ => trivial⟩
  | vStr s =>
    by_cases hs : s.data = []
    · constructor
      · intro _
        refine Or.inr (Or.inl ⟨s, rfl, ?_⟩)
        rw [hs]
        decide
      · intro _
        simp [parse_coordinates, hs]
    · simp only [parse_coordinates, if_neg hs]
      rcases hsp : splitComma s.data with _ | ⟨a, _ | ⟨b, _ | ⟨c, t⟩⟩⟩
      · exact ⟨fun _ => Or.inr (Or.inl ⟨s, rfl, by rw [hsp]; simp⟩), fun _ => rfl⟩
      · exact ⟨fun _ => Or.inr (Or.inl ⟨s, rfl, by rw [hsp]; simp⟩), fun _ => rfl⟩
      · dsimp only
        rcases hfa : pyFloatOfStr (stripBoth isPySpace a) with _ | fa
        · constructor
          · intro _
            exact Or.inr (Or.inr ⟨s, a, b, rfl, hsp, Or.inl hfa⟩)
          · intro _
            rfl
        · rcases hfb : pyFloatOfStr (stripBoth isPySpace b) with _ | fb
          · constructor
            · intro _
              exact Or.inr (Or.inr ⟨s, a, b, rfl, hsp, Or.inr hfb⟩)
            · intro _
              rfl
          · constructor
            · intro h
              simp at h
            · rintro (h | ⟨s', hs', hlen⟩ | ⟨s', a', b', hs', hsp', hf⟩)
              · exact absurd rfl (h s)
              · cases hs'
                rw [hsp] at hlen
                simp at hlen
              · cases hs'
                rw [hsp] at hsp'
                obtain ⟨ha', hb'⟩ : a' = a ∧ b' = b := by
                  simpa using hsp'.symm
                subst ha'
                subst hb'
                rcases hf with hf | hf
                · rw [hfa] at hf
                  cases hf
                · rw [hfb] at hf
                  cases hf
      · refine ⟨fun _ => Or.inr (Or.inl ⟨s, rfl, ?_⟩), fun _ => rfl⟩
        rw [hsp]
        simp only [List.length_cons, List.length_nil]
        omega

/-- C1, counterexample.  The end-to-end example row yields 11 triples, not the
10 the claim states: the claim's own enumeration (1 type + 1 category +
1 name + 1 locality + 1 department + 1 region + 2 geo + 1 osmId + 1 url +
1 modified) already sums to 11. -/
theorem c1_ten_triples_refuted :
    (convert_csv_to_rdf [rowMonumentX] none).g.length = 11 ∧
    ¬ (convert_csv_to_rdf [rowMonumentX] none).g.length = 10 := by
  decide

/-- C1, amended: the example row produces exactly the 11 enumerated triples,
every one on the subject URI ending in `osm_12345`, and one success and no
error. -/
theorem c1_end_to_end :
    convert_csv_to_rdf [rowMonumentX] none =
      ⟨[⟨"http://monuments-historiques.fr/resource/osm_12345", RDF_type,
          RDFNode.uri "http://schema.org/Place"⟩,
        ⟨"http://monuments-historiques.fr/resource/osm_12345", "http://schema.org/category",
          RDFNode.uri "http://schema.org/memorial"⟩,
        ⟨"http://monuments-historiques.fr/resource/osm_12345", "http://schema.org/name",
          RDFNode.litStr "Monument X"⟩,
        ⟨"http://monuments-historiques.fr/resource/osm_12345", "http://schema.org/addressLocality",
          RDFNode.litStr "Paris"⟩,
        ⟨"http://monuments-historiques.fr/resource/osm_12345", "http://schema.org/department",
          RDFNode.litStr "Paris"⟩,
        ⟨"http://monuments-historiques.fr/resource/osm_12345", "http://schema.org/addressRegion",
          RDFNode.litStr "Île-de-France"⟩,
        ⟨"http://monuments-historiques.fr/resource/osm_12345",
          "http://www.w3.org/2003/01/geo/wgs84_pos#lat",
          RDFNode.litDecimal (PyFloat.finite (mkRat 4897 100))⟩,
        ⟨"http://monuments-historiques.fr/resource/osm_12345",
          "http://www.w3.org/2003/01/geo/wgs84_pos#long",
          RDFNode.litDecimal (PyFloat.finite (mkRat 551 100))⟩,
        ⟨"http://monuments-historiques.fr/resource/osm_12345", "https://www.openstreetmap.org/osmId",
          RDFNode.litStr "12345"⟩,
        ⟨"http://monuments-historiques.fr/resource/osm_12345", "http://schema.org/url",
          RDFNode.uri "http://osm.org/12345"⟩,
        ⟨"http://monuments-historiques.fr/resource/osm_12345", "http://purl.org/dc/terms/modified",
          RDFNode.litDate "2020-01-01"⟩], 1, 0⟩ := by
  decide

/-! Lemmas about the conversion loop and the row limit. -/

theorem limitStops_false_of_le {n idx : ℕ} (h : idx ≤ n) :
    limitStops (some n) idx = false := by
  simp only [limitStops]
  split
  · rfl
  · simp
    omega

theorem limitStops_true_of_lt {n idx : ℕ} (h0 : n ≠ 0) (h : n < idx) :
    limitStops (some n) idx = true := by
  simp only [limitStops, if_neg h0]
  simpa using h

theorem convertAux_take {n : ℕ} (hn : 0 < n) (f : ℕ → Option ℕ) :
    ∀ (l : List Row) (idx : ℕ) (st : ConvResult),
      convertAux (some n) f l idx st =
        convertAux (some n) f (l.take (n + 1 - idx)) idx st := by
  intro l
  induction l with
  | nil => intro idx st; rw [List.take_nil]
  | cons r rest ih =>
    intro idx st
    by_cases hidx : n < idx
    · have h0 : n + 1 - idx = 0 := by omega
      rw [h0, List.take_zero]
      simp [convertAux, limitStops_true_of_lt (by omega) hidx]
    · have h1 : n + 1 - idx = (n - idx) + 1 := by omega
      rw [h1, List.take_succ_cons]
      simp only [convertAux, limitStops_false_of_le (by omega : idx ≤ n),
        Bool.false_eq_true, if_false]
      rw [ih (idx + 1)]
      have h2 : n + 1 - (idx + 1) = n - idx := by omega
      rw [h2]

theorem convertAux_success_count {n : ℕ} :
    ∀ (l : List Row) (idx : ℕ) (st : ConvResult), idx + l.length ≤ n + 1 →
      (convertAux (some n) (fun _ => none) l idx st).success = st.success + l.length := by
  intro l
  induction l with
  | nil => intro idx st _; rfl
  | cons r rest ih =>
    intro idx st h
    have hstop : limitStops (some n) idx = false := by
      refine limitStops_false_of_le ?_
      simp only [List.length_cons] at h
      omega
    simp only [convertAux, hstop, Bool.false_eq_true, if_false]
    rw [ih (idx + 1) _ (by simp only [List.length_cons] at h; omega)]
    simp only [processRow, List.length_cons]
    omega

/-- C6, counterexample.  A configured row limit of 0 is falsy in Python
(`if limit and idx > limit`), so the converter processes every row instead of
none: on a one-row file with limit 0 the success counter is 1 and the graph is
non-empty, while the claim demands that no row contribute. -/
theorem c6_limit_zero_refuted :
    (convert_csv_to_rdf [rowEmptyCells] (some 0)).success = 1 ∧
    (convert_csv_to_rdf [rowEmptyCells] (some 0)).g ≠ [] := by
  decide

/-- C6, amended: for every positive row limit N and every input with more than
N data rows, the run equals the run on just the first N rows (no later row
contributes any triple or touches a counter), and exactly N rows are counted
as successes. -/
theorem c6_limit_truncates (rows : List Row) (n : ℕ) (h1 : 0 < n)
    (h2 : n < rows.length) :
    convert_csv_to_rdf rows (some n) = convert_csv_to_rdf (rows.take n) (some n) ∧
    (convert_csv_to_rdf rows (some n)).success = n := by
  have hmain : convert_csv_to_rdf rows (some n) = convert_csv_to_rdf (rows.take n) (some n) := by
    unfold convert_csv_to_rdf convertFault
    rw [convertAux_take h1 (fun _ => none) rows 1]
    norm_num
  refine ⟨hmain, ?_⟩
  rw [hmain]
  unfold convert_csv_to_rdf convertFault
  rw [convertAux_success_count (rows.take n) 1 ⟨[], 0, 0⟩ (by
    rw [List.length_take]
    omega)]
  rw [List.length_take]
  simp
  omega

/-- C6, witness: the amended theorem at a two-row file with limit 1. -/
theorem c6_limit_truncates_witness :
    (convert_csv_to_rdf [rowEmptyCells, rowMonumentX] (some 1) =
      convert_csv_to_rdf ([rowEmptyCells, rowMonumentX].take 1) (some 1)) ∧
    (convert_csv_to_rdf [rowEmptyCells, rowMonumentX] (some 1)).success = 1 :=
  c6_limit_truncates [rowEmptyCells, rowMonumentX] 1 (by decide) (by decide)

/-- C7, counterexample.  An exception raised while mapping a row after the
base `rdf:type` add has executed does not leave the graph as it was before
the row: on a one-row run whose row faults after its first add, the graph
keeps the `rdf:type schema:Place` triple even though the row is counted as an
error and not as a success. -/
theorem c7_full_skip_refuted :
    convertFault [rowEmptyCells] none (fun i => if i = 1 then some 1 else none) =
      ⟨[⟨"http://monuments-historiques.fr/resource/monument_1", RDF_type,
         RDFNode.uri "http://schema.org/Place"⟩], 0, 1⟩ ∧
    (convertFault [rowEmptyCells] none (fun i => if i = 1 then some 1 else none)).g ≠ [] := by
  decide

/-- C7, amended: an exception raised while mapping a row after `k` of its
`g.add` calls leaves exactly those first `k` triples committed (the base
`rdf:type` triple among them when `k ≥ 1`), increments the error counter by
one, leaves the success counter alone, and processing continues with the next
row. -/
theorem c7_partial_commit (st : ConvResult) (row : Row) (rest : List Row)
    (limit : Option ℕ) (fault : ℕ → Option ℕ) (idx k : ℕ)
    (hf : fault idx = some k) (hs : limitStops limit idx = false) :
    convertAux limit fault (row :: rest) idx st =
      convertAux limit fault rest (idx + 1)
        ⟨((rowTriples row idx).take k).foldl addTriple st.g,
         st.success, st.errors + 1⟩ := by
  simp [convertAux, hs, processRow, hf]

/-- C7, witness: the amended theorem at a concrete one-row run faulting after
one add. -/
theorem c7_partial_commit_witness :
    convertAux none (fun i => if i = 1 then some 1 else none) [rowEmptyCells] 1 ⟨[], 0, 0⟩ =
      convertAux none (fun i => if i = 1 then some 1 else none) [] 2
        ⟨((rowTriples rowEmptyCells 1).take 1).foldl addTriple [], 0, 0 + 1⟩ :=
  c7_partial_commit ⟨[], 0, 0⟩ rowEmptyCells [] none
    (fun i => if i = 1 then some 1 else none) 1 1 (by decide) (by decide)

/-! Graph membership lemmas. -/

theorem mem_addTriple {g : List Triple} {t t' : Triple} :
    t ∈ addTriple g t' ↔ t ∈ g ∨ t = t' := by
  unfold addTriple
  split
  · constructor
    · exact fun h => Or.inl h
    · rintro (h | rfl)
      · exact h
      · assumption
  · simp [List.mem_append]

theorem mem_foldl_addTriple :
    ∀ (ts g : List Triple) (t : Triple),
      t ∈ ts.foldl addTriple g ↔ t ∈ g ∨ t ∈ ts := by
  intro ts
  induction ts with
  | nil => simp
  | cons a ts ih =>
    intro g t
    simp only [List.foldl_cons, List.mem_cons]
    rw [ih, mem_addTriple]
    tauto

theorem foldl_addTriple_of_subset :
    ∀ (ts g : List Triple), (∀ t ∈ ts, t ∈ g) → ts.foldl addTriple g = g := by
  intro ts
  induction ts with
  | nil => intro g _; rfl
  | cons a ts ih =>
    intro g h
    simp only [List.foldl_cons]
    rw [show addTriple g a = g from if_pos (h a (List.mem_cons_self a ts))]
    exact ih g (fun t ht => h t (List.mem_cons_of_mem a ht))

theorem mem_optTriple {t : Triple} {oc : Option String} {f : String → Triple} :
    t ∈ optTriple oc f ↔ ∃ v, oc = some v ∧ t = f v := by
  cases oc <;> simp [optTriple]

theorem mem_geoTriples {t : Triple} {oc : Option String} {u : String} :
    t ∈ geoTriples oc u ↔
      ∃ p la lo, oc = some p ∧ parse_coordinates (PyVal.vStr p) = some (la, lo) ∧
        (t = ⟨u, WGS84 ++ "lat", RDFNode.litDecimal la⟩ ∨
         t = ⟨u, WGS84 ++ "long", RDFNode.litDecimal lo⟩) := by
  cases oc with
  | none => simp [geoTriples]
  | some p =>
    rcases hpc : parse_coordinates (PyVal.vStr p) with _ | ⟨la, lo⟩
    · simp [geoTriples, hpc]
    · simp only [geoTriples, hpc, List.mem_cons, List.mem_singleton,
        Option.some.injEq]
      constructor
      · rintro (rfl | (rfl | h))
        · exact ⟨p, la, lo, rfl, hpc, Or.inl rfl⟩
        · exact ⟨p, la, lo, rfl, hpc, Or.inr rfl⟩
        · cases h
      · rintro ⟨p', la', lo', rfl, hpc', h⟩
        rw [hpc] at hpc'
        obtain ⟨rfl, rfl⟩ : la = la' ∧ lo = lo' := by
          simpa using hpc'
        rcases h with rfl | rfl
        · exact Or.inl rfl
        · exact Or.inr (Or.inl rfl)

/-- A `wgs84:lat` triple on subject `subj` comes from a row exactly when
`subj` is the row's URI and the row's cleaned `OSM Point` parses. -/
theorem lat_mem_rowTriples_iff (row : Row) (idx : ℕ) (subj : String) :
    (∃ o, (⟨subj, WGS84 ++ "lat", o⟩ : Triple) ∈ rowTriples row idx) ↔
      (subj = monumentURI row idx ∧ ∃ p la lo,
        clean_value row.osmPoint = some p ∧
        parse_coordinates (PyVal.vStr p) = some (la, lo)) := by
  constructor
  · rintro ⟨o, hmem⟩
    simp only [rowTriples, map_csv_to_rdf, List.mem_cons, List.mem_append,
      mem_optTriple, mem_geoTriples] at hmem
    rcases hmem with heq | ((((((((⟨v, _, heq⟩ | ⟨v, _, heq⟩) | ⟨v, _, heq⟩) |
        ⟨v, _, heq⟩) | ⟨v, _, heq⟩) | ⟨p, la, lo, hp, hpc, heq⟩) | ⟨v, _, heq⟩) |
        ⟨v, _, heq⟩) | ⟨v, _, heq⟩)
    · simp only [Triple.mk.injEq] at heq
      exact absurd heq.2.1 (by decide)
    · simp only [Triple.mk.injEq] at heq
      exact absurd heq.2.1 (by decide)
    · simp only [Triple.mk.injEq] at heq
      exact absurd heq.2.1 (by decide)
    · simp only [Triple.mk.injEq] at heq
      exact absurd heq.2.1 (by decide)
    · simp only [Triple.mk.injEq] at heq
      exact absurd heq.2.1 (by decide)
    · simp only [Triple.mk.injEq] at heq
      exact absurd heq.2.1 (by decide)
    · rcases heq with heq | heq
      · simp only [Triple.mk.injEq] at heq
        exact ⟨heq.1, p, la, lo, hp, hpc⟩
      · simp only [Triple.mk.injEq] at heq
        exact absurd heq.2.1 (by decide)
    · simp only [Triple.mk.injEq] at heq
      exact absurd heq.2.1 (by decide)
    · simp only [Triple.mk.injEq] at heq
      exact absurd heq.2.1 (by decide)
    · simp only [Triple.mk.injEq] at heq
      exact absurd heq.2.1 (by decide)
  · rintro ⟨rfl, p, la, lo, hp, hpc⟩
    refine ⟨RDFNode.litDecimal la, ?_⟩
    simp only [rowTriples, map_csv_to_rdf, List.mem_cons, List.mem_append,
      mem_geoTriples]
    right
    left
    left
    left
    right
    exact ⟨p, la, lo, hp, hpc, Or.inl rfl⟩

/-- The `wgs84:long` counterpart of `lat_mem_rowTriples_iff`: same condition. -/
theorem long_mem_rowTriples_iff (row : Row) (idx : ℕ) (subj : String) :
    (∃ o, (⟨subj, WGS84 ++ "long", o⟩ : Triple) ∈ rowTriples row idx) ↔
      (subj = monumentURI row idx ∧ ∃ p la lo,
        clean_value row.osmPoint = some p ∧
        parse_coordinates (PyVal.vStr p) = some (la, lo)) := by
  constructor
  · rintro ⟨o, hmem⟩
    simp only [rowTriples, map_csv_to_rdf, List.mem_cons, List.mem_append,
      mem_optTriple, mem_geoTriples] at hmem
    rcases hmem with heq | ((((((((⟨v, _, heq⟩ | ⟨v, _, heq⟩) | ⟨v, _, heq⟩) |
        ⟨v, _, heq⟩) | ⟨v, _, heq⟩) | ⟨p, la, lo, hp, hpc, heq⟩) | ⟨v, _, heq⟩) |
        ⟨v, _, heq⟩) | ⟨v, _, heq⟩)
    · simp only [Triple.mk.injEq] at heq
      exact absurd heq.2.1 (by decide)
    · simp only [Triple.mk.injEq] at heq
      exact absurd heq.2.1 (by decide)
    · simp only [Triple.mk.injEq] at heq
      exact absurd heq.2.1 (by decide)
    · simp only [Triple.mk.injEq] at heq
      exact absurd heq.2.1 (by decide)
    · simp only [Triple.mk.injEq] at heq
      exact absurd heq.2.1 (by decide)
    · simp only [Triple.mk.injEq] at heq
      exact absurd heq.2.1 (by decide)
    · rcases heq with heq | heq
      · simp only [Triple.mk.injEq] at heq
        exact absurd heq.2.1 (by decide)
      · simp only [Triple.mk.injEq] at heq
        exact ⟨heq.1, p, la, lo, hp, hpc⟩
    · simp only [Triple.mk.injEq] at heq
      exact absurd heq.2.1 (by decide)
    · simp only [Triple.mk.injEq] at heq
      exact absurd heq.2.1 (by decide)
    · simp only [Triple.mk.injEq] at heq
      exact absurd heq.2.1 (by decide)
  · rintro ⟨rfl, p, la, lo, hp, hpc⟩
    refine ⟨RDFNode.litDecimal lo, ?_⟩
    simp only [rowTriples, map_csv_to_rdf, List.mem_cons, List.mem_append,
      mem_geoTriples]
    right
    left
    left
    left
    right
    exact ⟨p, la, lo, hp, hpc, Or.inr rfl⟩

theorem lat_iff_long_convertAux (limit : Option ℕ) :
    ∀ (l : List Row) (idx : ℕ) (st : ConvResult),
      (∀ subj, (∃ o, (⟨subj, WGS84 ++ "lat", o⟩ : Triple) ∈ st.g) ↔
               (∃ o, (⟨subj, WGS84 ++ "long", o⟩ : Triple) ∈ st.g)) →
      ∀ subj,
        (∃ o, (⟨subj, WGS84 ++ "lat", o⟩ : Triple) ∈
          (convertAux limit (fun _ => none) l idx st).g) ↔
        (∃ o, (⟨subj, WGS84 ++ "long", o⟩ : Triple) ∈
          (convertAux limit (fun _ => none) l idx st).g) := by
  intro l
  induction l with
  | nil => intro idx st h subj; exact h subj
  | cons r rest ih =>
    intro idx st h subj
    simp only [convertAux]
    split
    · exact h subj
    · refine ih (idx + 1) (processRow none st r idx) ?_ subj
      intro s
      simp only [processRow, mem_foldl_addTriple]
      constructor
      · rintro ⟨o, ho | ho⟩
        · obtain ⟨o', ho'⟩ := (h s).mp ⟨o, ho⟩
          exact ⟨o', Or.inl ho'⟩
        · obtain ⟨hs, hgeo⟩ := (lat_mem_rowTriples_iff r idx s).mp ⟨o, ho⟩
          obtain ⟨o', ho'⟩ := (long_mem_rowTriples_iff r idx s).mpr ⟨hs, hgeo⟩
          exact ⟨o', Or.inr ho'⟩
      · rintro ⟨o, ho | ho⟩
        · obtain ⟨o', ho'⟩ := (h s).mpr ⟨o, ho⟩
          exact ⟨o', Or.inl ho'⟩
        · obtain ⟨hs, hgeo⟩ := (long_mem_rowTriples_iff r idx s).mp ⟨o, ho⟩
          obtain ⟨o', ho'⟩ := (lat_mem_rowTriples_iff r idx s).mpr ⟨hs, hgeo⟩
          exact ⟨o', Or.inr ho'⟩

/-- C8, confirmed: in every run's output graph, a subject carries a
`wgs84:lat` triple exactly when it carries a `wgs84:long` triple (each row
emits the two as a pair or not at all); and the example row whose `OSM Point`
is `"48.97"` (no comma) yields its eight other applicable triples and no geo
triple. -/
theorem c8_geo_pair :
    (∀ (rows : List Row) (limit : Option ℕ) (subj : String),
      (∃ o, (⟨subj, WGS84 ++ "lat", o⟩ : Triple) ∈ (convert_csv_to_rdf rows limit).g) ↔
      (∃ o, (⟨subj, WGS84 ++ "long", o⟩ : Triple) ∈ (convert_csv_to_rdf rows limit).g)) ∧
    map_csv_to_rdf rowPointNoComma "http://monuments-historiques.fr/resource/osm_12345" =
      [⟨"http://monuments-historiques.fr/resource/osm_12345", "http://schema.org/category",
          RDFNode.uri "http://schema.org/memorial"⟩,
       ⟨"http://monuments-historiques.fr/resource/osm_12345", "http://schema.org/name",
          RDFNode.litStr "Monument X"⟩,
       ⟨"http://monuments-historiques.fr/resource/osm_12345", "http://schema.org/addressLocality",
          RDFNode.litStr "Paris"⟩,
       ⟨"http://monuments-historiques.fr/resource/osm_12345", "http://schema.org/department",
          RDFNode.litStr "Paris"⟩,
       ⟨"http://monuments-historiques.fr/resource/osm_12345", "http://schema.org/addressRegion",
          RDFNode.litStr "Île-de-France"⟩,
       ⟨"http://monuments-historiques.fr/resource/osm_12345", "https://www.openstreetmap.org/osmId",
          RDFNode.litStr "12345"⟩,
       ⟨"http://monuments-historiques.fr/resource/osm_12345", "http://schema.org/url",
          RDFNode.uri "http://osm.org/12345"⟩,
       ⟨"http://monuments-historiques.fr/resource/osm_12345", "http://purl.org/dc/terms/modified",
          RDFNode.litDate "2020-01-01"⟩] := by
  constructor
  · intro rows limit subj
    refine lat_iff_long_convertAux limit rows 1 ⟨[], 0, 0⟩ ?_ subj
    intro s
    simp
  · decide

/-- C9, confirmed: a row in which every mapped column cleans to absent still
contributes exactly one triple — its fallback resource typed `schema:Place` —
and counts as one success with no error. -/
theorem c9_empty_row (row : Row)
    (h1 : clean_value row.typ = none) (h2 : clean_value row.nom = none)
    (h3 : clean_value row.commune = none) (h4 : clean_value row.departement = none)
    (h5 : clean_value row.region = none) (h6 : clean_value row.osmPoint = none)
    (h7 : clean_value row.osmId = none) (h8 : clean_value row.osmUrl = none)
    (h9 : clean_value row.osmDate = none) :
    map_csv_to_rdf row (monumentURI row 1) = [] ∧
    convert_csv_to_rdf [row] none =
      ⟨[⟨"http://monuments-historiques.fr/resource/monument_1", RDF_type,
         RDFNode.uri "http://schema.org/Place"⟩], 1, 0⟩ := by
  have hmap : ∀ u, map_csv_to_rdf row u = [] := by
    intro u
    simp [map_csv_to_rdf, optTriple, geoTriples, h1, h2, h3, h4, h5, h6, h7, h8, h9]
  have huri : monumentURI row 1 = "http://monuments-historiques.fr/resource/monument_1" := by
    unfold monumentURI monumentId
    rw [h7]
    decide
  refine ⟨hmap _, ?_⟩
  unfold convert_csv_to_rdf convertFault
  simp only [convertAux, limitStops, Bool.false_eq_true, if_false, processRow,
    rowTriples, hmap, huri]
  decide

/-- C9, witness: the theorem at the all-absent row. -/
theorem c9_empty_row_witness :
    map_csv_to_rdf rowEmptyCells (monumentURI rowEmptyCells 1) = [] ∧
    convert_csv_to_rdf [rowEmptyCells] none =
      ⟨[⟨"http://monuments-historiques.fr/resource/monument_1", RDF_type,
         RDFNode.uri "http://schema.org/Place"⟩], 1, 0⟩ :=
  c9_empty_row rowEmptyCells rfl rfl rfl rfl rfl rfl rfl rfl rfl

/-- C10, confirmed: rows with the same non-empty cleaned `OSM Id` get the
identical subject URI (`safe_uri` of `osm_<id>` under the base namespace)
whatever their indices, the fallback `monument_<idx>` identifier is used only
when the cleaned id is absent, and processing the same row twice adds no new
triple: the graph is a set, so exact duplicates collapse. -/
theorem c10_stable_subject :
    (∀ (r1 r2 : Row) (i1 i2 : ℕ) (v : String),
        clean_value r1.osmId = some v → clean_value r2.osmId = some v →
        monumentURI r1 i1 = monumentURI r2 i2 ∧
        monumentURI r1 i1 = safe_uri BASE ("osm_" ++ v)) ∧
    (∀ (r : Row) (i : ℕ), clean_value r.osmId = none →
        monumentId r i = "monument_" ++ toString i) ∧
    (∀ (r : Row) (v : String), clean_value r.osmId = some v →
        (convert_csv_to_rdf [r, r] none).g = (convert_csv_to_rdf [r] none).g) := by
  refine ⟨?_, ?_, ?_⟩
  · intro r1 r2 i1 i2 v hv1 hv2
    unfold monumentURI monumentId
    rw [hv1, hv2]
    exact ⟨rfl, rfl⟩
  · intro r i h
    unfold monumentId
    rw [h]
  · intro r v hv
    have hrow : rowTriples r 2 = rowTriples r 1 := by
      unfold rowTriples monumentURI monumentId
      rw [hv]
    unfold convert_csv_to_rdf convertFault
    simp only [convertAux, limitStops, Bool.false_eq_true, if_false, processRow, hrow]
    exact foldl_addTriple_of_subset _ _
      (fun t ht => (mem_foldl_addTriple _ _ t).mpr (Or.inr ht))

/-- C10, witness: the theorem's parts at the concrete id `777`, indices 1 and
5, and a duplicated row. -/
theorem c10_stable_subject_witness :
    (monumentURI rowOsm777 1 = monumentURI rowOsm777 5 ∧
      monumentURI rowOsm777 1 = safe_uri BASE ("osm_" ++ "777")) ∧
    (convert_csv_to_rdf [rowOsm777, rowOsm777] none).g =
      (convert_csv_to_rdf [rowOsm777] none).g :=
  ⟨c10_stable_subject.1 rowOsm777 rowOsm777 1 5 "777" (by decide) (by decide),
   c10_stable_subject.2.2 rowOsm777 "777" (by decide)⟩

end RdfConverter
